import Mathlib

/-!
Verification development for the wave-function-collapse pipe-tile solver.

The definitions in the first half of this file are a shallow embedding of
`src/main.rs`: `State` with its connectivity flags and `fits_*` predicates,
`Domain` (`Collapsed` / `Superposition` / `Invalid`), and `Field` with
`new`, `get`, `get_mut`, `collapse_random` and `propagate`.  Randomness is
made explicit: every operation that consumes entropy from `rand::thread_rng`
takes a natural-number draw, and a uniform choice among `n` items is the
item at index `draw % n`.  Mutation through `&mut` references is modelled by
explicit state passing (`Field.setIdx`); `propagate`'s in-place sweep is a
fold over the row-major coordinate list that threads the grid, so narrowings
made earlier in a sweep are visible to later cells, exactly as in the source.
-/

namespace WFC

/-- The closed tile set, from `enum State` in the source.  Letters name the
arms the tile has: B = bottom, L = left, T = top, R = right. -/
inductive State : Type
  | Empty | BL | BLT | BLR | BT | BTR | BR | LT | LTR | LR | TR | BLTR
  deriving DecidableEq

/-- `State::all`. -/
def State.all : List State :=
  [.Empty, .BL, .BLT, .BLR, .BT, .BTR, .BR, .LT, .LTR, .LR, .TR, .BLTR]

/-- `State::count`. -/
def State.count : Nat := State.all.length

/-- The `#[weight(n)]` attribute of each variant (consumed only by the
derived `Rand` implementation in the source, which the program never calls). -/
def State.weight : State → Nat
  | .Empty => 5 | .BL => 5 | .BLT => 5 | .BLR => 2 | .BT => 3 | .BTR => 2
  | .BR => 3 | .LT => 3 | .LTR => 2 | .LR => 3 | .TR => 3 | .BLTR => 1

/-- `State::connects_left`. -/
def State.connects_left : State → Bool
  | .BL | .BLT | .BLR | .LT | .LTR | .LR | .BLTR => true
  | _ => false

/-- `State::connects_right`. -/
def State.connects_right : State → Bool
  | .BLR | .BTR | .BR | .LTR | .LR | .TR | .BLTR => true
  | _ => false

/-- `State::connects_top`. -/
def State.connects_top : State → Bool
  | .BLT | .BT | .BTR | .LT | .LTR | .TR | .BLTR => true
  | _ => false

/-- `State::connects_bottom`. -/
def State.connects_bottom : State → Bool
  | .BL | .BLT | .BLR | .BT | .BTR | .BR | .BLTR => true
  | _ => false

/-- `State::fits_left`: `self.connects_left() == other.connects_right()`. -/
def State.fits_left (a b : State) : Bool := a.connects_left == b.connects_right

/-- `State::fits_bottom`: `self.connects_bottom() == other.connects_top()`. -/
def State.fits_bottom (a b : State) : Bool := a.connects_bottom == b.connects_top

/-- `State::fits_right`: defined as the mirror call `other.fits_left(self)`. -/
def State.fits_right (a b : State) : Bool := b.fits_left a

/-- `State::fits_top`: defined as the mirror call `other.fits_bottom(self)`. -/
def State.fits_top (a b : State) : Bool := b.fits_bottom a

/-- `InvalidDomainError` (the spec's ContradictionError). -/
structure InvalidDomainError where
  deriving DecidableEq

/-- `OutOfBoundsError`. -/
structure OutOfBoundsError where
  deriving DecidableEq

/-- `enum Domain`: `Collapsed` is the spec's Fixed, `Superposition` the
spec's Undetermined, `Invalid` the spec's Contradiction. -/
inductive Domain : Type
  | Collapsed (s : State)
  | Superposition (v : List State)
  | Invalid
  deriving DecidableEq

/-- `Domain::enthropy`. -/
def Domain.enthropy : Domain → Except InvalidDomainError Nat
  | .Invalid => .error ⟨⟩
  | .Collapsed _ => .ok 0
  | .Superposition v => .ok v.length

/-- `Domain::collapse`.  The source calls `v.choose_mut(&mut thread_rng())`,
a uniform choice over the candidate vector; with the draw made explicit the
chosen element is the one at index `draw % v.length` (and `None`, hence
`Invalid`, on an empty vector). -/
def Domain.collapse (d : Domain) (draw : Nat) : Domain :=
  match d with
  | .Collapsed s => .Collapsed s
  | .Superposition v =>
    match v[draw % v.length]? with
    | some s => .Collapsed s
    | none => .Invalid
  | .Invalid => .Invalid

/-- `matches!(d, Domain::Superposition(_))` from `main`. -/
def Domain.isSuperposition : Domain → Bool
  | .Superposition _ => true
  | _ => false

/-- `matches!(d, Domain::Invalid)` from `main`. -/
def Domain.isInvalid : Domain → Bool
  | .Invalid => true
  | _ => false

/-- `struct Field`. -/
structure Field where
  size : Nat
  domains : List Domain
  deriving DecidableEq

/-- `Field::new`. -/
def Field.new (size : Nat) : Field :=
  { size := size, domains := List.replicate (size * size) (.Superposition State.all) }

/-- `Field::get`. -/
def Field.get (f : Field) (x y : Nat) : Except OutOfBoundsError Domain :=
  if x < f.size ∧ y < f.size then
    match f.domains[y * f.size + x]? with
    | some d => .ok d
    | none => .error ⟨⟩
  else
    .error ⟨⟩

/-- `Field::get_mut`: same bounds test as `get`; it returns a mutable
reference, so the model returns the cell and writes through the reference
are modelled by `Field.setIdx` at the same index. -/
def Field.get_mut (f : Field) (x y : Nat) : Except OutOfBoundsError Domain :=
  if x < f.size ∧ y < f.size then
    match f.domains[y * f.size + x]? with
    | some d => .ok d
    | none => .error ⟨⟩
  else
    .error ⟨⟩

/-- Writing through a `&mut` reference into `domains`. -/
def Field.setIdx (f : Field) (i : Nat) (d : Domain) : Field :=
  { size := f.size, domains := f.domains.set i d }

/-- The scan loop of `Field::collapse_random` over the enumerated domains:
`m` is `minimum_enthropy` (initially `State::count() + 1`), the accumulator
is `minimum_enthropy_domains` as a list of indices. -/
def scanMinAux : List (Nat × Domain) → Nat → List Nat →
    Except InvalidDomainError (List Nat)
  | [], _, acc => .ok acc
  | (i, d) :: rest, m, acc =>
    match d.enthropy with
    | .error e => .error e
    | .ok e =>
      if e = 0 then
        scanMinAux rest m acc
      else
        let m' := if e < m then e else m
        let acc' := if e < m then [] else acc
        scanMinAux rest m' (if e = m' then acc' ++ [i] else acc')

/-- `Field::collapse_random`.  `d1` is the draw for `choose_mut` among the
tied minimum-enthropy cells, `d2` the draw consumed by `Domain::collapse`
on the chosen cell.  (The final `none` branch is unreachable: the scanned
indices all lie inside `domains`.) -/
def Field.collapse_random (f : Field) (d1 d2 : Nat) :
    Except InvalidDomainError (Bool × Field) :=
  match scanMinAux f.domains.enum (State.count + 1) [] with
  | .error e => .error e
  | .ok idxs =>
    match idxs[d1 % idxs.length]? with
    | none => .ok (false, f)
    | some i =>
      match f.domains[i]? with
      | some d => .ok (true, f.setIdx i (d.collapse d2))
      | none => .ok (true, f)

/-- One side's test inside `is_allowed_state`: `Invalid` neighbor raises the
error, `Collapsed` applies the given `fits_*` predicate, `Superposition`
tests `v.iter().any(..)`, a missing neighbor is no constraint. -/
def sideCheck (fits : State → State → Bool) (state : State) :
    Option Domain → Except InvalidDomainError Bool
  | some .Invalid => .error ⟨⟩
  | some (.Collapsed other) => .ok (fits state other)
  | some (.Superposition v) => .ok (v.any (fun other => fits state other))
  | none => .ok true

/-- `is_allowed_state` from `Field::propagate`.  The Rust body is a `&&`
chain `left && right && bottom && top` with early `return Err` on an
`Invalid` neighbor; `&&` short-circuits, so a later side (and its error) is
only evaluated when every earlier side passed. -/
def is_allowed_state (state : State) (left right top bottom : Option Domain) :
    Except InvalidDomainError Bool :=
  match sideCheck State.fits_left state left with
  | .error e => .error e
  | .ok false => .ok false
  | .ok true =>
    match sideCheck State.fits_right state right with
    | .error e => .error e
    | .ok false => .ok false
    | .ok true =>
      match sideCheck State.fits_bottom state bottom with
      | .error e => .error e
      | .ok false => .ok false
      | .ok true => sideCheck State.fits_top state top

/-- The `for state in v` filter loop of the `Superposition` arm of
`propagate`: keeps the states `is_allowed_state` accepts, propagating its
error. -/
def filterAllowed (left right top bottom : Option Domain) :
    List State → Except InvalidDomainError (List State)
  | [] => .ok []
  | s :: rest =>
    match is_allowed_state s left right top bottom with
    | .error e => .error e
    | .ok b =>
      match filterAllowed left right top bottom rest with
      | .error e => .error e
      | .ok tail => .ok (if b then s :: tail else tail)

/-- The `left` neighbor binding in `propagate`: `match x { 0 => None, _ =>
self.get(x - 1, y).ok() }`. -/
def Field.leftOf (f : Field) (x y : Nat) : Option Domain :=
  match x with
  | 0 => none
  | _ + 1 => (f.get (x - 1) y).toOption

/-- The `right` neighbor binding: `self.get(x + 1, y).ok()`. -/
def Field.rightOf (f : Field) (x y : Nat) : Option Domain :=
  (f.get (x + 1) y).toOption

/-- The `top` neighbor binding: `match y { 0 => None, _ => self.get(x, y - 1).ok() }`. -/
def Field.topOf (f : Field) (x y : Nat) : Option Domain :=
  match y with
  | 0 => none
  | _ + 1 => (f.get x (y - 1)).toOption

/-- The `bottom` neighbor binding: `self.get(x, y + 1).ok()`. -/
def Field.bottomOf (f : Field) (x y : Nat) : Option Domain :=
  (f.get x (y + 1)).toOption

/-- The body of `propagate`'s double loop for one cell `(x, y)`: reads the
current cell and its four neighbors from the grid as it stands, then
re-evaluates the cell.  The sweep keeps `x < size` and `y < size`, where the
source's `get(x, y).unwrap()` cannot fail (the constructor allocates
`size * size` cells); the unreachable `none` branch leaves the grid
unchanged. -/
def Field.processCell (f : Field) (x y : Nat) : Except InvalidDomainError Field :=
  match (f.get x y).toOption with
  | none => .ok f
  | some .Invalid => .error ⟨⟩
  | some (.Collapsed s) =>
    match is_allowed_state s (f.leftOf x y) (f.rightOf x y) (f.topOf x y) (f.bottomOf x y) with
    | .error e => .error e
    | .ok true => .ok f
    | .ok false => .ok (f.setIdx (y * f.size + x) .Invalid)
  | some (.Superposition v) =>
    match filterAllowed (f.leftOf x y) (f.rightOf x y) (f.topOf x y) (f.bottomOf x y) v with
    | .error e => .error e
    | .ok allowed =>
      .ok (f.setIdx (y * f.size + x)
        (match allowed with
          | [] => .Invalid
          | [s] => .Collapsed s
          | _ => .Superposition allowed))

/-- The row-major coordinate order of `propagate`'s `for y { for x { .. } }`. -/
def sweepCoords (size : Nat) : List (Nat × Nat) :=
  ((List.range size).map (fun y => (List.range size).map (fun x => (x, y)))).flatten

/-- Runs the sweep over a coordinate list, threading the in-place mutations;
on an error the sweep stops and the grid mutated so far is kept (as the Rust
`?` leaves `self` partially updated). -/
def Field.sweepGo : List (Nat × Nat) → Field → Field × Option InvalidDomainError
  | [], f => (f, none)
  | c :: rest, f =>
    match f.processCell c.1 c.2 with
    | .ok f' => Field.sweepGo rest f'
    | .error e => (f, some e)

/-- `Field::propagate` including the state of the grid when an error is
raised mid-sweep. -/
def Field.propagateFull (f : Field) : Field × Option InvalidDomainError :=
  Field.sweepGo (sweepCoords f.size) f

/-- `Field::propagate`'s `Result` value. -/
def Field.propagate (f : Field) : Except InvalidDomainError Field :=
  match f.propagateFull with
  | (g, none) => .ok g
  | (_, some e) => .error e

/-- `domains.iter().map(enthropy).collect::<Result<Vec<_>, _>>()` from `main`. -/
def enthropies : List Domain → Except InvalidDomainError (List Nat)
  | [] => .ok []
  | d :: rest =>
    match d.enthropy with
    | .error e => .error e
    | .ok n =>
      match enthropies rest with
      | .error e => .error e
      | .ok ns => .ok (n :: ns)

/-- `main`'s total enthropy: the sum of all cell enthropies, erroring if any
cell is `Invalid`. -/
def Field.totalEnthropy (f : Field) : Except InvalidDomainError Nat :=
  match enthropies f.domains with
  | .error e => .error e
  | .ok es => .ok es.sum

/-- Iterated sweeps (for stating that propagation alone never changes a
grid already at a fixed point). -/
def Field.propagateN (f : Field) : Nat → Except InvalidDomainError Field
  | 0 => .ok f
  | n + 1 =>
    match f.propagate with
    | .error e => .error e
    | .ok g => g.propagateN n

/-- `main`'s inner `while old_enthropy != new_enthropy` loop, fuelled.  A
failed sweep breaks out keeping the partially propagated grid; a successful
sweep recomputes the total enthropy, where the source's `?` aborts the whole
run on an `Invalid` cell. -/
def Field.innerLoop : Nat → Nat → Nat → Field → Except InvalidDomainError Field
  | 0, _, _, f => .ok f
  | fuel + 1, old, cur, f =>
    if old = cur then .ok f
    else
      match f.propagateFull with
      | (g, some _) => .ok g
      | (g, none) =>
        match g.totalEnthropy with
        | .error e => .error e
        | .ok n2 => Field.innerLoop fuel cur n2 g

/-- `main`'s outer loop, fuelled: while some cell is a `Superposition` and
none is `Invalid`, draw for `collapse_random` (a failure breaks out and the
final grid is printed), then run the inner propagation loop from
`old = 0, new = 1`.  `ds` is the explicit stream of random draws, `k` the
number of draws consumed so far. -/
def solverLoop (ds : Nat → Nat) : Nat → Nat → Field → Except InvalidDomainError Field
  | 0, _, f => .ok f
  | fuel + 1, k, f =>
    if f.domains.any Domain.isSuperposition && !(f.domains.any Domain.isInvalid) then
      match f.collapse_random (ds k) (ds (k + 1)) with
      | .error _ => .ok f
      | .ok (_, f1) =>
        match Field.innerLoop (fuel + 1) 0 1 f1 with
        | .error e => .error e
        | .ok f2 => solverLoop ds fuel (k + 2) f2
    else
      .ok f

/-- `fn main` for a given grid side length: the final grid the program
prints (or the error it returns), as a function of the draw stream. -/
def runMain (fuel : Nat) (ds : Nat → Nat) (size : Nat) :
    Except InvalidDomainError Field :=
  solverLoop ds fuel 0 (Field.new size)

/-! ### Specification-side definitions -/

/-- One side's compatibility as the spec describes it: no neighbor is no
constraint, a Fixed neighbor must pass the `fits` test, an Undetermined
neighbor must fit at least one member, a Contradiction neighbor admits no
tile. -/
def compatSide (fits : State → State → Bool) (state : State) :
    Option Domain → Bool
  | none => true
  | some (.Collapsed other) => fits state other
  | some (.Superposition v) => v.any (fun other => fits state other)
  | some .Invalid => false

/-- None of the four neighbor slots holds a Contradiction cell. -/
def noInvalidNeighbor (left right top bottom : Option Domain) : Prop :=
  left ≠ some .Invalid ∧ right ≠ some .Invalid ∧
    top ≠ some .Invalid ∧ bottom ≠ some .Invalid

/-- The spec's survival test: compatible with all four sides simultaneously
(listed in the code's evaluation order left, right, bottom, top). -/
def survives (state : State) (left right top bottom : Option Domain) : Bool :=
  compatSide State.fits_left state left &&
    compatSide State.fits_right state right &&
    compatSide State.fits_bottom state bottom &&
    compatSide State.fits_top state top

/-- A cell's uncertainty as a plain number (0 for Fixed and for
Contradiction, which has no defined uncertainty). -/
def Domain.enthropyD : Domain → Nat
  | .Superposition v => v.length
  | _ => 0

/-- One step of the scan's running minimum: a positive enthropy below the
current minimum replaces it. -/
def minPosStep (m : Nat) (d : Domain) : Nat :=
  if 0 < d.enthropyD ∧ d.enthropyD < m then d.enthropyD else m

/-- The scan's running minimum over a cell list, from a given start. -/
def minPosFrom (l : List Domain) (m : Nat) : Nat := l.foldl minPosStep m

/-- The minimum positive uncertainty of a grid's cells, defaulting to
`State.count + 1` when every cell is fixed. -/
def minPosEnthropy (l : List Domain) : Nat := minPosFrom l (State.count + 1)

/-- The indices of an enumerated cell list whose uncertainty equals `m`. -/
def tiedIdxsFrom (pl : List (Nat × Domain)) (m : Nat) : List Nat :=
  (pl.filter (fun p => p.2.enthropyD == m)).map Prod.fst

/-- The indices of the cells tied at the minimum positive uncertainty. -/
def tiedMinIdxs (l : List Domain) : List Nat :=
  tiedIdxsFrom l.enum (minPosEnthropy l)

/-- `d.narrows e`: `d` is a possible re-evaluation result of a cell that
held `e` (Contradiction narrows anything; a Fixed tile survives unchanged
or was a member of the old candidate set; a filtered candidate set is a
sublist of the old one). -/
def Domain.narrows : Domain → Domain → Prop
  | .Invalid, _ => True
  | .Collapsed s, .Collapsed t => s = t
  | .Collapsed s, .Superposition v => s ∈ v
  | .Superposition w, .Superposition v => w.Sublist v
  | .Superposition _, .Collapsed _ => False
  | .Collapsed _, .Invalid => False
  | .Superposition _, .Invalid => False

/-- `narrows` lifted to optional cells (out-of-range stays out-of-range). -/
def narrowsO : Option Domain → Option Domain → Prop
  | some a, some b => a.narrows b
  | none, none => True
  | _, _ => False

/-- Grid `g` is a cellwise narrowing of grid `f`. -/
def FieldNarrows (g f : Field) : Prop :=
  g.size = f.size ∧ ∀ i : Nat, narrowsO g.domains[i]? f.domains[i]?

/-- Total selection weight of a candidate list. -/
def State.totalWeight (v : List State) : Nat := (v.map State.weight).sum

/-! ### Concrete grids used as counterexamples and examples -/

/-- A 2×2 grid whose cell (0,1) is re-evaluated while its top neighbor
(0,0) has already become `Invalid` in the same sweep, yet the sweep
completes without error. -/
def gridShortCircuit : Field :=
  { size := 2,
    domains := [.Collapsed .Empty, .Superposition [],
                .Superposition [.Empty], .Superposition []] }

/-- A 2×2 grid whose bottom-right cell is Fixed to `LR`, which fails the
four-side compatibility test against its left neighbor `Empty`. -/
def gridBottomRight : Field :=
  { size := 2,
    domains := [.Collapsed .Empty, .Collapsed .Empty,
                .Collapsed .Empty, .Collapsed .LR] }

/-- A 2×2 grid whose Fixed cell (1,0) (`BT`) fails its compatibility test
mid-sweep, becomes `Invalid`, and the sweep still returns success. -/
def gridFixedFails : Field :=
  { size := 2,
    domains := [.Collapsed .Empty, .Collapsed .BT,
                .Collapsed .Empty, .Superposition []] }

/-- A 1×1 grid holding one candidate list with 14 entries (more than
`State.count + 1`), which the `collapse_random` scan skips entirely. -/
def gridOversized : Field :=
  { size := 1, domains := [.Superposition (List.replicate 14 .Empty)] }

/-- A 1×1 grid with one two-candidate cell, used to instantiate the
`collapse_random` characterization. -/
def gridTwoChoices : Field :=
  { size := 1, domains := [.Superposition [.Empty, .BL]] }

/-! ### Helper lemmas -/

theorem sideCheck_eq (fits : State → State → Bool) (s : State) (o : Option Domain)
    (h : o ≠ some .Invalid) : sideCheck fits s o = .ok (compatSide fits s o) := by
  match o with
  | none => rfl
  | some (.Collapsed t) => rfl
  | some (.Superposition v) => rfl
  | some .Invalid => exact absurd rfl h

theorem is_allowed_eq (s : State) (l r t b : Option Domain)
    (h : noInvalidNeighbor l r t b) :
    is_allowed_state s l r t b = .ok (survives s l r t b) := by
  obtain ⟨hl, hr, ht, hb⟩ := h
  unfold is_allowed_state survives
  rw [sideCheck_eq State.fits_left s _ hl, sideCheck_eq State.fits_right s _ hr,
    sideCheck_eq State.fits_bottom s _ hb, sideCheck_eq State.fits_top s _ ht]
  cases compatSide State.fits_left s l <;>
    cases compatSide State.fits_right s r <;>
      cases compatSide State.fits_bottom s b <;>
        cases compatSide State.fits_top s t <;> rfl

theorem filterAllowed_eq (l r t b : Option Domain) (h : noInvalidNeighbor l r t b)
    (v : List State) :
    filterAllowed l r t b v = .ok (v.filter (fun s => survives s l r t b)) := by
  induction v with
  | nil => rfl
  | cons s rest ih =>
    show (match is_allowed_state s l r t b with
      | Except.error e => Except.error e
      | Except.ok bb =>
        match filterAllowed l r t b rest with
        | Except.error e => Except.error e
        | Except.ok tail => Except.ok (if bb then s :: tail else tail)) = _
    rw [is_allowed_eq s l r t b h, ih, List.filter_cons]

theorem processCell_collapsed (f : Field) (x y : Nat) (s : State)
    (hc : f.get x y = .ok (.Collapsed s))
    (h : noInvalidNeighbor (f.leftOf x y) (f.rightOf x y) (f.topOf x y) (f.bottomOf x y)) :
    f.processCell x y = .ok
      (if survives s (f.leftOf x y) (f.rightOf x y) (f.topOf x y) (f.bottomOf x y)
        then f else f.setIdx (y * f.size + x) .Invalid) := by
  unfold Field.processCell
  rw [hc]
  show (match is_allowed_state s (f.leftOf x y) (f.rightOf x y) (f.topOf x y)
      (f.bottomOf x y) with
    | Except.error e => Except.error e
    | Except.ok true => Except.ok f
    | Except.ok false => Except.ok (f.setIdx (y * f.size + x) .Invalid)) = _
  rw [is_allowed_eq s _ _ _ _ h]
  cases survives s (f.leftOf x y) (f.rightOf x y) (f.topOf x y) (f.bottomOf x y) <;> rfl

theorem processCell_superposition (f : Field) (x y : Nat) (v : List State)
    (hc : f.get x y = .ok (.Superposition v))
    (h : noInvalidNeighbor (f.leftOf x y) (f.rightOf x y) (f.topOf x y) (f.bottomOf x y)) :
    f.processCell x y = .ok (f.setIdx (y * f.size + x)
      (match v.filter (fun s =>
          survives s (f.leftOf x y) (f.rightOf x y) (f.topOf x y) (f.bottomOf x y)) with
        | [] => .Invalid
        | [s] => .Collapsed s
        | w => .Superposition w)) := by
  unfold Field.processCell
  rw [hc]
  show (match filterAllowed (f.leftOf x y) (f.rightOf x y) (f.topOf x y)
      (f.bottomOf x y) v with
    | Except.error e => Except.error e
    | Except.ok allowed =>
      Except.ok (f.setIdx (y * f.size + x)
        (match allowed with
          | [] => Domain.Invalid
          | [s] => Domain.Collapsed s
          | _ => Domain.Superposition allowed))) = _
  rw [filterAllowed_eq _ _ _ _ h v]
  cases hw : v.filter (fun s =>
      survives s (f.leftOf x y) (f.rightOf x y) (f.topOf x y) (f.bottomOf x y)) with
  | nil => rfl
  | cons s0 tail => cases tail <;> rfl

theorem new_get_eq (size x y : Nat) :
    (Field.new size).get x y =
      if x < size ∧ y < size then .ok (.Superposition State.all) else .error ⟨⟩ := by
  unfold Field.get
  simp only [Field.new]
  by_cases h : x < size ∧ y < size
  · rw [if_pos h, if_pos h]
    have hidx : y * size + x < size * size := by
      calc y * size + x < y * size + size := Nat.add_lt_add_left h.1 _
        _ = (y + 1) * size := (Nat.succ_mul y size).symm
        _ ≤ size * size := Nat.mul_le_mul_right size h.2
    rw [List.getElem?_eq_getElem (by simpa using hidx), List.getElem_replicate]
  · rw [if_neg h, if_neg h]

/-! ### Claim theorems -/

/-- C6: for all tile pairs (A, B), `fits_left A B = fits_right B A` and
`fits_top A B = fits_bottom B A`; both hold definitionally because the
source defines `fits_right` and `fits_top` as the mirror calls. -/
theorem fits_symmetry (a b : State) :
    a.fits_left b = State.fits_right b a ∧ a.fits_top b = State.fits_bottom b a :=
  ⟨rfl, rfl⟩

/-- C7: on a grid created by `new size`, `get` and `get_mut` fail with
`OutOfBoundsError` exactly when `x ≥ size` or `y ≥ size`, and in range they
return the cell (the initial full superposition) rather than clamping or
panicking. -/
theorem get_bounds (size x y : Nat) :
    ((Field.new size).get x y = .error ⟨⟩ ↔ size ≤ x ∨ size ≤ y) ∧
    (x < size → y < size → (Field.new size).get x y = .ok (.Superposition State.all)) ∧
    ((Field.new size).get_mut x y = .error ⟨⟩ ↔ size ≤ x ∨ size ≤ y) ∧
    (x < size → y < size → (Field.new size).get_mut x y = .ok (.Superposition State.all)) := by
  have hm : (Field.new size).get_mut x y = (Field.new size).get x y := rfl
  rw [hm, new_get_eq size x y]
  by_cases h : x < size ∧ y < size
  · rw [if_pos h]
    refine ⟨⟨fun hcontra => absurd hcontra (by simp), fun hor => absurd hor (by omega)⟩,
      fun _ _ => rfl, ⟨fun hcontra => absurd hcontra (by simp), fun hor => absurd hor (by omega)⟩,
      fun _ _ => rfl⟩
  · rw [if_neg h]
    refine ⟨⟨fun _ => by omega, fun _ => rfl⟩, fun hx hy => absurd ⟨hx, hy⟩ h,
      ⟨fun _ => by omega, fun _ => rfl⟩, fun hx hy => absurd ⟨hx, hy⟩ h⟩

/-- Witness for `get_bounds` at concrete coordinates: out of range fails,
in range returns the initial cell. -/
theorem get_bounds_witness :
    (Field.new 2).get 3 0 = .error ⟨⟩ ∧ (Field.new 2).get 1 1 = .ok (.Superposition State.all) :=
  ⟨(get_bounds 2 3 0).1.mpr (Or.inl (by decide)), (get_bounds 2 1 1).2.1 (by decide) (by decide)⟩

/-- C8: on the 1×1 grid all four neighbor slots are `none` (no constraint),
any number of `propagate()` sweeps leaves the full-superposition cell
unchanged (so it never becomes `Invalid` through propagation alone), and
`collapse` can produce every tile of the full set for a suitable draw. -/
theorem one_by_one_unconstrained :
    ((Field.new 1).leftOf 0 0 = none ∧ (Field.new 1).rightOf 0 0 = none ∧
      (Field.new 1).topOf 0 0 = none ∧ (Field.new 1).bottomOf 0 0 = none) ∧
    (∀ n : Nat, (Field.new 1).propagateN n = .ok (Field.new 1)) ∧
    (∀ s : State, ∃ draw : Nat,
      (Domain.Superposition State.all).collapse draw = .Collapsed s) := by
  refine ⟨⟨rfl, rfl, rfl, rfl⟩, ?_, ?_⟩
  · intro n
    induction n with
    | zero => rfl
    | succ n ih =>
      show (match (Field.new 1).propagate with
        | Except.error e => Except.error e
        | Except.ok g => g.propagateN n) = Except.ok (Field.new 1)
      rw [show (Field.new 1).propagate = .ok (Field.new 1) from rfl]
      exact ih
  · intro s
    exact match s with
      | .Empty => ⟨0, rfl⟩
      | .BL => ⟨1, rfl⟩
      | .BLT => ⟨2, rfl⟩
      | .BLR => ⟨3, rfl⟩
      | .BT => ⟨4, rfl⟩
      | .BTR => ⟨5, rfl⟩
      | .BR => ⟨6, rfl⟩
      | .LT => ⟨7, rfl⟩
      | .LTR => ⟨8, rfl⟩
      | .LR => ⟨9, rfl⟩
      | .TR => ⟨10, rfl⟩
      | .BLTR => ⟨11, rfl⟩

/-- C9: the run is a pure function of the explicit stream of random draws
(the only sources of entropy is the tie-break choice in `collapse_random`
and the candidate choice in `collapse`, both threaded through `ds`), so two
runs consuming an identical draw sequence produce identical final grids. -/
theorem run_deterministic (fuel size : Nat) (ds1 ds2 : Nat → Nat)
    (h : ∀ i, ds1 i = ds2 i) :
    runMain fuel ds1 size = runMain fuel ds2 size := by
  rw [show ds1 = ds2 from funext h]

/-- Witness for `run_deterministic` on a concrete fuel, size and stream. -/
theorem run_deterministic_witness :
    runMain 3 (fun _ => 0) 2 = runMain 3 (fun _ => 0) 2 :=
  run_deterministic 3 2 (fun _ => 0) (fun _ => 0) (fun _ => rfl)

/-- C10 counterexample: in `gridBottomRight` the bottom-right cell is Fixed
to `LR`, whose four-side compatibility test against its neighbors fails
(`LR` demands a left connection its `Empty` left neighbor does not offer),
yet `propagate()` reports an error instead of succeeding with a
Contradiction cell: the left neighbor fails its own re-evaluation first,
becomes `Invalid`, and is then read as an `Invalid` neighbor. -/
theorem bottom_right_fixed_fails_cx :
    gridBottomRight.get 1 1 = .ok (.Collapsed .LR) ∧
    is_allowed_state .LR (gridBottomRight.leftOf 1 1) (gridBottomRight.rightOf 1 1)
      (gridBottomRight.topOf 1 1) (gridBottomRight.bottomOf 1 1) = .ok false ∧
    gridBottomRight.propagate = .error ⟨⟩ :=
  ⟨rfl, rfl, rfl⟩

/-- C10 (amended): `propagate()` can return success while leaving cells in
the Contradiction state.  In `gridFixedFails` the Fixed cell (1,0) fails
its compatibility test, is set to `Invalid`, the sweep continues, and
`propagate()` returns `ok` on a grid containing `Invalid` cells. -/
theorem propagate_ok_with_invalid :
    gridFixedFails.get 1 0 = .ok (.Collapsed .BT) ∧
    is_allowed_state .BT (gridFixedFails.leftOf 1 0) (gridFixedFails.rightOf 1 0)
      (gridFixedFails.topOf 1 0) (gridFixedFails.bottomOf 1 0) = .ok false ∧
    gridFixedFails.propagate = .ok ⟨2, [.Collapsed .Empty, .Invalid, .Invalid, .Invalid]⟩ :=
  ⟨rfl, rfl, rfl⟩

/-- C1 counterexample: a Contradiction neighbor does not necessarily make
`propagate()` fail.  In `gridShortCircuit`'s sweep, after the first two
cells are processed, cell (0,1)'s top neighbor (0,0) is `Invalid`; the
sweep still completes without error because (0,1)'s candidates already fail
the earlier right-side check and the `&&` chain short-circuits before the
Invalid top neighbor is consulted. -/
theorem invalid_neighbor_no_failure_cx :
    sweepCoords gridShortCircuit.size = [(0, 0), (1, 0), (0, 1), (1, 1)] ∧
    Field.sweepGo [(0, 0), (1, 0)] gridShortCircuit =
      (⟨2, [.Invalid, .Invalid, .Superposition [.Empty], .Superposition []]⟩, none) ∧
    (Field.sweepGo [(0, 0), (1, 0)] gridShortCircuit).1.topOf 0 1 = some .Invalid ∧
    gridShortCircuit.propagate = .ok ⟨2, [.Invalid, .Invalid, .Invalid, .Invalid]⟩ :=
  ⟨rfl, rfl, rfl, rfl⟩

/-- C1 (amended): when none of the four neighbor slots holds a
Contradiction cell, a tile survives a cell's re-evaluation iff it is
compatible with all four sides simultaneously (`survives`): a missing
neighbor imposes no constraint, a Fixed neighbor requires the `fits_*`
test, an Undetermined neighbor an existential test over its candidates.  A
Fixed cell whose tile fails becomes Contradiction; an Undetermined cell's
candidate set is filtered to the survivors — empty becomes Contradiction, a
singleton becomes Fixed, otherwise the cell stays Undetermined with the
filtered set.  (A Contradiction neighbor fails the evaluation only when the
left-right-bottom-top short-circuit chain actually consults it.) -/
theorem cell_reevaluation_spec :
    (∀ (s : State) (l r t b : Option Domain), noInvalidNeighbor l r t b →
      is_allowed_state s l r t b = .ok (survives s l r t b)) ∧
    (∀ (f : Field) (x y : Nat) (s : State), f.get x y = .ok (.Collapsed s) →
      noInvalidNeighbor (f.leftOf x y) (f.rightOf x y) (f.topOf x y) (f.bottomOf x y) →
      f.processCell x y = .ok
        (if survives s (f.leftOf x y) (f.rightOf x y) (f.topOf x y) (f.bottomOf x y)
          then f else f.setIdx (y * f.size + x) .Invalid)) ∧
    (∀ (f : Field) (x y : Nat) (v : List State), f.get x y = .ok (.Superposition v) →
      noInvalidNeighbor (f.leftOf x y) (f.rightOf x y) (f.topOf x y) (f.bottomOf x y) →
      f.processCell x y = .ok (f.setIdx (y * f.size + x)
        (match v.filter (fun s =>
            survives s (f.leftOf x y) (f.rightOf x y) (f.topOf x y) (f.bottomOf x y)) with
          | [] => .Invalid
          | [s] => .Collapsed s
          | w => .Superposition w))) :=
  ⟨is_allowed_eq, processCell_collapsed, processCell_superposition⟩

/-- Witness for `cell_reevaluation_spec`: an unconstrained cell's tile
survives. -/
theorem cell_reevaluation_spec_witness :
    is_allowed_state .Empty none none none none = .ok true :=
  cell_reevaluation_spec.1 .Empty none none none none
    ⟨by decide, by decide, by decide, by decide⟩

/-- C3 counterexample: `collapse()` is not weighted sampling.  On the
candidate set `[Empty, BLTR]` (weights 5 and 1) the two equiprobable draw
residues select `Empty` exactly once, i.e. with probability 1/2, while
weight-proportional sampling demands 5/6; cross-multiplied, the count of
selecting draws times the total weight differs from the weight times the
number of draws. -/
theorem collapse_not_weighted_cx :
    ((List.range 2).filter (fun draw =>
        decide ((Domain.Superposition [.Empty, .BLTR]).collapse draw
          = .Collapsed .Empty))).length * State.totalWeight [.Empty, .BLTR] ≠
      State.weight .Empty * (List.range 2).length := by decide

/-- C3 (amended): `collapse()` is a no-op on Fixed and Contradiction cells,
turns an empty candidate set into Contradiction, and otherwise draws one
candidate uniformly at random — the draw indexes the candidate list modulo
its length, so each position is equally likely and the declared selection
weights are not consulted. -/
theorem collapse_uniform (draw : Nat) :
    (∀ s : State, (Domain.Collapsed s).collapse draw = .Collapsed s) ∧
    Domain.Invalid.collapse draw = .Invalid ∧
    (Domain.Superposition []).collapse draw = .Invalid ∧
    ∀ v : List State, ∀ h : v ≠ [],
      (Domain.Superposition v).collapse draw =
        .Collapsed (v.get ⟨draw % v.length, Nat.mod_lt draw (List.length_pos.mpr h)⟩) := by
  refine ⟨fun s => rfl, rfl, rfl, fun v h => ?_⟩
  show (match v[draw % v.length]? with
    | some s => Domain.Collapsed s
    | none => Domain.Invalid) = _
  rw [List.getElem?_eq_getElem (Nat.mod_lt draw (List.length_pos.mpr h))]
  rw [List.get_eq_getElem]

/-- Witness for `collapse_uniform` at a concrete candidate list and draw. -/
theorem collapse_uniform_witness :
    (Domain.Superposition [State.Empty, State.BLTR]).collapse 1 = .Collapsed .BLTR :=
  (collapse_uniform 1).2.2.2 [.Empty, .BLTR] (by decide)

theorem narrows_refl (d : Domain) : d.narrows d := by
  cases d with
  | Collapsed s => exact rfl
  | Superposition v => exact List.Sublist.refl v
  | Invalid => exact trivial

theorem narrows_trans {a b c : Domain} (h1 : a.narrows b) (h2 : b.narrows c) :
    a.narrows c := by
  cases a <;> cases b <;> cases c <;>
    simp_all only [Domain.narrows] <;>
      first
        | exact h2.subset h1
        | exact List.Sublist.trans h1 h2

theorem narrowsO_refl (o : Option Domain) : narrowsO o o := by
  cases o with
  | none => exact trivial
  | some d => exact narrows_refl d

theorem narrowsO_trans {a b c : Option Domain} (h1 : narrowsO a b) (h2 : narrowsO b c) :
    narrowsO a c := by
  cases a <;> cases b <;> cases c <;> simp_all only [narrowsO]
  exact narrows_trans h1 h2

theorem FieldNarrows_refl (f : Field) : FieldNarrows f f :=
  ⟨rfl, fun _ => narrowsO_refl _⟩

theorem FieldNarrows_trans {g h f : Field} (h1 : FieldNarrows g h) (h2 : FieldNarrows h f) :
    FieldNarrows g f :=
  ⟨h1.1.trans h2.1, fun i => narrowsO_trans (h1.2 i) (h2.2 i)⟩

theorem FieldNarrows_length {g f : Field} (h : FieldNarrows g f) :
    g.domains.length = f.domains.length := by
  by_contra hne
  rcases Nat.lt_or_ge g.domains.length f.domains.length with hlt | hge
  · have h2 := h.2 g.domains.length
    rw [List.getElem?_eq_none (Nat.le_refl _), List.getElem?_eq_getElem hlt] at h2
    exact h2
  · have hlt2 : f.domains.length < g.domains.length := by omega
    have h2 := h.2 f.domains.length
    rw [List.getElem?_eq_getElem hlt2, List.getElem?_eq_none (Nat.le_refl _)] at h2
    exact h2

theorem setIdx_narrows (f : Field) (i : Nat) (d' : Domain)
    (h : ∀ d, f.domains[i]? = some d → d'.narrows d) :
    FieldNarrows (f.setIdx i d') f := by
  refine ⟨rfl, fun j => ?_⟩
  show narrowsO (f.domains.set i d')[j]? f.domains[j]?
  rw [List.getElem?_set]
  by_cases hij : i = j
  · rw [if_pos hij]
    subst hij
    by_cases hlen : i < f.domains.length
    · rw [if_pos hlen, List.getElem?_eq_getElem hlen]
      exact h _ (List.getElem?_eq_getElem hlen)
    · rw [if_neg hlen, List.getElem?_eq_none (by omega)]
      exact trivial
  · rw [if_neg hij]
    exact narrowsO_refl _

theorem narrowsO_none_some {d : Domain} (h : narrowsO none (some d)) : False := h

theorem narrowsO_some_none {d : Domain} (h : narrowsO (some d) none) : False := h

theorem narrowsO_some_some {a b : Domain} (h : narrowsO (some a) (some b)) :
    a.narrows b := h

theorem get_toOption_some {f : Field} {x y : Nat} {d : Domain}
    (h : (f.get x y).toOption = some d) : f.domains[y * f.size + x]? = some d := by
  unfold Field.get at h
  by_cases hb : x < f.size ∧ y < f.size
  · rw [if_pos hb] at h
    cases hg : f.domains[y * f.size + x]? with
    | none =>
      rw [hg] at h
      exact absurd h (by simp [Except.toOption])
    | some d0 =>
      rw [hg] at h
      simp only [Except.toOption] at h
      exact h
  · rw [if_neg hb] at h
    exact absurd h (by simp [Except.toOption])

theorem filterAllowed_sublist {l r t b : Option Domain} :
    ∀ {v w : List State}, filterAllowed l r t b v = .ok w → w.Sublist v := by
  intro v
  induction v with
  | nil =>
    intro w h
    injection h with h
    rw [← h]
  | cons s rest ih =>
    intro w h
    unfold filterAllowed at h
    cases hia : is_allowed_state s l r t b with
    | error e => rw [hia] at h; exact absurd h (by simp)
    | ok bb =>
      rw [hia] at h
      cases hfa : filterAllowed l r t b rest with
      | error e => rw [hfa] at h; exact absurd h (by simp)
      | ok tail =>
        rw [hfa] at h
        injection h with h
        rw [← h]
        cases bb with
        | true => exact List.Sublist.cons₂ s (ih hfa)
        | false => exact List.Sublist.cons s (ih hfa)

theorem processCell_narrows {f g : Field} {x y : Nat}
    (h : f.processCell x y = .ok g) : FieldNarrows g f := by
  unfold Field.processCell at h
  split at h
  · injection h with h
    rw [← h]
    exact FieldNarrows_refl f
  · exact absurd h (by simp)
  · split at h
    · exact absurd h (by simp)
    · injection h with h
      rw [← h]
      exact FieldNarrows_refl f
    · injection h with h
      rw [← h]
      exact setIdx_narrows f _ .Invalid (fun d _ => trivial)
  · rename_i v hget
    split at h
    · exact absurd h (by simp)
    · rename_i w hfa
      injection h with h
      rw [← h]
      refine setIdx_narrows f _ _ (fun d hd => ?_)
      rw [get_toOption_some hget] at hd
      injection hd with hd
      rw [← hd]
      have hsub : w.Sublist v := filterAllowed_sublist hfa
      cases w with
      | nil => exact trivial
      | cons s0 tail =>
        cases tail with
        | nil =>
          show Domain.narrows (.Collapsed s0) (.Superposition v)
          exact hsub.subset (List.mem_singleton_self s0)
        | cons s1 tail2 =>
          show Domain.narrows (.Superposition (s0 :: s1 :: tail2)) (.Superposition v)
          exact hsub

theorem sweepGo_narrows : ∀ (L : List (Nat × Nat)) (f : Field),
    FieldNarrows (Field.sweepGo L f).1 f := by
  intro L
  induction L with
  | nil => intro f; exact FieldNarrows_refl f
  | cons c rest ih =>
    intro f
    show FieldNarrows (match f.processCell c.1 c.2 with
      | Except.ok f' => Field.sweepGo rest f'
      | Except.error e => (f, some e)).1 f
    cases hp : f.processCell c.1 c.2 with
    | ok f' => exact FieldNarrows_trans (ih f') (processCell_narrows hp)
    | error e => exact FieldNarrows_refl f

theorem propagate_ok_eq {f g : Field} (h : f.propagate = .ok g) :
    f.propagateFull = (g, none) := by
  unfold Field.propagate at h
  cases hp : f.propagateFull with
  | mk g' e =>
    rw [hp] at h
    cases e with
    | none =>
      injection h with h
      rw [h]
    | some err => exact absurd h (by simp)

theorem propagate_narrows {f g : Field} (h : f.propagate = .ok g) : FieldNarrows g f := by
  have hp := propagate_ok_eq h
  have hn := sweepGo_narrows (sweepCoords f.size) f
  rw [show Field.sweepGo (sweepCoords f.size) f = f.propagateFull from rfl, hp] at hn
  exact hn

theorem narrows_enth_le {a b : Domain} {ea eb : Nat} (hn : a.narrows b)
    (ha : a.enthropy = .ok ea) (hb : b.enthropy = .ok eb) : ea ≤ eb := by
  cases a with
  | Invalid => exact absurd ha (by simp [Domain.enthropy])
  | Collapsed s =>
    simp only [Domain.enthropy, Except.ok.injEq] at ha
    omega
  | Superposition w =>
    cases b with
    | Invalid => exact hn.elim
    | Collapsed t => exact hn.elim
    | Superposition v =>
      simp only [Domain.enthropy, Except.ok.injEq] at ha hb
      have := List.Sublist.length_le (hn : w.Sublist v)
      omega

theorem narrows_enth_eq {a b : Domain} {e : Nat} (hn : a.narrows b)
    (ha : a.enthropy = .ok e) (hb : b.enthropy = .ok e) : a = b := by
  cases a with
  | Invalid => exact absurd ha (by simp [Domain.enthropy])
  | Collapsed s =>
    cases b with
    | Invalid => exact absurd hb (by simp [Domain.enthropy])
    | Collapsed t => rw [show s = t from hn]
    | Superposition v =>
      simp only [Domain.enthropy, Except.ok.injEq] at ha hb
      have hv : v = [] := List.length_eq_zero.mp (by omega)
      subst hv
      exact absurd (hn : s ∈ ([] : List State)) (List.not_mem_nil s)
  | Superposition w =>
    cases b with
    | Invalid => exact absurd hb (by simp [Domain.enthropy])
    | Collapsed t => exact hn.elim
    | Superposition v =>
      simp only [Domain.enthropy, Except.ok.injEq] at ha hb
      rw [List.Sublist.eq_of_length (hn : w.Sublist v) (by omega)]

theorem narrows_sum_le : ∀ (l1 l2 : List Domain),
    (∀ i : Nat, narrowsO l1[i]? l2[i]?) →
    ∀ {es1 es2 : List Nat}, enthropies l1 = .ok es1 → enthropies l2 = .ok es2 →
      es1.sum ≤ es2.sum := by
  intro l1
  induction l1 with
  | nil =>
    intro l2 hp es1 es2 h1 h2
    cases l2 with
    | nil =>
      injection h1 with h1
      injection h2 with h2
      rw [← h1, ← h2]
    | cons b lb =>
      have h0 := hp 0
      rw [List.getElem?_nil, List.getElem?_cons_zero] at h0
      exact (narrowsO_none_some h0).elim
  | cons a la ih =>
    intro l2 hp es1 es2 h1 h2
    cases l2 with
    | nil =>
      have h0 := hp 0
      rw [List.getElem?_nil, List.getElem?_cons_zero] at h0
      exact (narrowsO_some_none h0).elim
    | cons b lb =>
      have h0 : a.narrows b := by
        have h0 := hp 0
        rw [List.getElem?_cons_zero, List.getElem?_cons_zero] at h0
        exact narrowsO_some_some h0
      have htail : ∀ i : Nat, narrowsO la[i]? lb[i]? := by
        intro i
        have hi := hp (i + 1)
        rw [List.getElem?_cons_succ, List.getElem?_cons_succ] at hi
        exact hi
      unfold enthropies at h1 h2
      cases hea : a.enthropy with
      | error e => rw [hea] at h1; exact absurd h1 (by simp)
      | ok ea =>
        rw [hea] at h1
        cases hra : enthropies la with
        | error e => rw [hra] at h1; exact absurd h1 (by simp)
        | ok esa =>
          rw [hra] at h1
          injection h1 with h1
          cases heb : b.enthropy with
          | error e => rw [heb] at h2; exact absurd h2 (by simp)
          | ok eb =>
            rw [heb] at h2
            cases hrb : enthropies lb with
            | error e => rw [hrb] at h2; exact absurd h2 (by simp)
            | ok esb =>
              rw [hrb] at h2
              injection h2 with h2
              rw [← h1, ← h2]
              simp only [List.sum_cons]
              exact Nat.add_le_add (narrows_enth_le h0 hea heb) (ih lb htail hra hrb)

theorem narrows_sum_eq : ∀ (l1 l2 : List Domain),
    (∀ i : Nat, narrowsO l1[i]? l2[i]?) →
    ∀ {es1 es2 : List Nat}, enthropies l1 = .ok es1 → enthropies l2 = .ok es2 →
      es1.sum = es2.sum → l1 = l2 := by
  intro l1
  induction l1 with
  | nil =>
    intro l2 hp es1 es2 h1 h2 _
    cases l2 with
    | nil => rfl
    | cons b lb =>
      have h0 := hp 0
      rw [List.getElem?_nil, List.getElem?_cons_zero] at h0
      exact (narrowsO_none_some h0).elim
  | cons a la ih =>
    intro l2 hp es1 es2 h1 h2 hsum
    cases l2 with
    | nil =>
      have h0 := hp 0
      rw [List.getElem?_nil, List.getElem?_cons_zero] at h0
      exact (narrowsO_some_none h0).elim
    | cons b lb =>
      have h0 : a.narrows b := by
        have h0 := hp 0
        rw [List.getElem?_cons_zero, List.getElem?_cons_zero] at h0
        exact narrowsO_some_some h0
      have htail : ∀ i : Nat, narrowsO la[i]? lb[i]? := by
        intro i
        have hi := hp (i + 1)
        rw [List.getElem?_cons_succ, List.getElem?_cons_succ] at hi
        exact hi
      unfold enthropies at h1 h2
      cases hea : a.enthropy with
      | error e => rw [hea] at h1; exact absurd h1 (by simp)
      | ok ea =>
        rw [hea] at h1
        cases hra : enthropies la with
        | error e => rw [hra] at h1; exact absurd h1 (by simp)
        | ok esa =>
          rw [hra] at h1
          injection h1 with h1
          cases heb : b.enthropy with
          | error e => rw [heb] at h2; exact absurd h2 (by simp)
          | ok eb =>
            rw [heb] at h2
            cases hrb : enthropies lb with
            | error e => rw [hrb] at h2; exact absurd h2 (by simp)
            | ok esb =>
              rw [hrb] at h2
              injection h2 with h2
              rw [← h1, ← h2] at hsum
              simp only [List.sum_cons] at hsum
              have hle1 : ea ≤ eb := narrows_enth_le h0 hea heb
              have hle2 : esa.sum ≤ esb.sum := narrows_sum_le la lb htail hra hrb
              have heq1 : ea = eb := by omega
              have heq2 : esa.sum = esb.sum := by omega
              rw [narrows_enth_eq h0 hea (heq1 ▸ heb), ih lb htail hra hrb heq2]

/-- C4: on a grid where `propagate()` returns successfully, no cell's
uncertainty (candidate-set size) after the sweep exceeds its uncertainty
before the sweep, and the total uncertainty is non-increasing. -/
theorem propagate_monotone (f g : Field) (h : f.propagate = .ok g) :
    (∀ (i : Nat) (da db : Domain) (ea eb : Nat),
      f.domains[i]? = some da → g.domains[i]? = some db →
      da.enthropy = .ok ea → db.enthropy = .ok eb → eb ≤ ea) ∧
    (∀ t1 t2 : Nat, f.totalEnthropy = .ok t1 → g.totalEnthropy = .ok t2 → t2 ≤ t1) := by
  have hn := propagate_narrows h
  constructor
  · intro i da db ea eb hfa hgb hea heb
    have hi := hn.2 i
    rw [hgb, hfa] at hi
    exact narrows_enth_le hi heb hea
  · intro t1 t2 h1 h2
    unfold Field.totalEnthropy at h1 h2
    cases hfe : enthropies f.domains with
    | error e => rw [hfe] at h1; exact absurd h1 (by simp)
    | ok esf =>
      rw [hfe] at h1
      injection h1 with h1
      cases hge : enthropies g.domains with
      | error e => rw [hge] at h2; exact absurd h2 (by simp)
      | ok esg =>
        rw [hge] at h2
        injection h2 with h2
        rw [← h1, ← h2]
        exact narrows_sum_le g.domains f.domains hn.2 hge hfe

/-- Witness for `propagate_monotone` on the 1×1 grid, whose sweep leaves
the total uncertainty at 12. -/
theorem propagate_monotone_witness :
    (Field.new 1).totalEnthropy = .ok 12 ∧ (12 : Nat) ≤ 12 :=
  ⟨rfl, (propagate_monotone (Field.new 1) (Field.new 1) rfl).2 12 12 rfl rfl⟩

/-- C5: if a successful `propagate()` sweep leaves the total uncertainty
unchanged, the grid itself is unchanged, and a further `propagate()` call
returns its input grid identically. -/
theorem propagate_fixedpoint (f g : Field) (t : Nat) (h : f.propagate = .ok g)
    (hf : f.totalEnthropy = .ok t) (hg : g.totalEnthropy = .ok t) :
    g = f ∧ g.propagate = .ok g := by
  have hn := propagate_narrows h
  have hdom : g.domains = f.domains := by
    unfold Field.totalEnthropy at hf hg
    cases hfe : enthropies f.domains with
    | error e => rw [hfe] at hf; exact absurd hf (by simp)
    | ok esf =>
      rw [hfe] at hf
      injection hf with hf
      cases hge : enthropies g.domains with
      | error e => rw [hge] at hg; exact absurd hg (by simp)
      | ok esg =>
        rw [hge] at hg
        injection hg with hg
        exact narrows_sum_eq g.domains f.domains hn.2 hge hfe (by omega)
  have hgf : g = f := by
    obtain ⟨hsz, _⟩ := hn
    cases g with
    | mk gs gd =>
      cases f with
      | mk fs fd =>
        simp only at hsz hdom
        rw [hsz, hdom]
  refine ⟨hgf, ?_⟩
  rw [hgf] at h ⊢
  exact h

/-- Witness for `propagate_fixedpoint`: the 1×1 grid is already at a fixed
point of total uncertainty 12. -/
theorem propagate_fixedpoint_witness :
    (Field.new 1).propagate = .ok (Field.new 1) :=
  (propagate_fixedpoint (Field.new 1) (Field.new 1) 12 rfl rfl rfl).2

theorem enthropy_ok_of_ne_invalid {d : Domain} (h : d ≠ .Invalid) :
    d.enthropy = .ok d.enthropyD := by
  cases d with
  | Invalid => exact absurd rfl h
  | Collapsed s => rfl
  | Superposition v => rfl

theorem minPosStep_le (m : Nat) (d : Domain) : minPosStep m d ≤ m := by
  unfold minPosStep
  split <;> omega

theorem minPosFrom_le : ∀ (l : List Domain) (m : Nat), minPosFrom l m ≤ m := by
  intro l
  induction l with
  | nil => intro m; exact Nat.le_refl m
  | cons d rest ih =>
    intro m
    calc minPosFrom rest (minPosStep m d) ≤ minPosStep m d := ih _
      _ ≤ m := minPosStep_le m d

theorem minPosFrom_pos : ∀ (l : List Domain) (m : Nat), 1 ≤ m → 1 ≤ minPosFrom l m := by
  intro l
  induction l with
  | nil => intro m hm; exact hm
  | cons d rest ih =>
    intro m hm
    refine ih (minPosStep m d) ?_
    unfold minPosStep
    split <;> omega

theorem minPosFrom_le_pos : ∀ (l : List Domain) (m : Nat) (d : Domain),
    d ∈ l → 0 < d.enthropyD → minPosFrom l m ≤ d.enthropyD := by
  intro l
  induction l with
  | nil => intro m d hd; exact absurd hd (List.not_mem_nil d)
  | cons a rest ih =>
    intro m d hd hpos
    rcases List.mem_cons.mp hd with heq | hmem
    · subst heq
      calc minPosFrom rest (minPosStep m d) ≤ minPosStep m d := minPosFrom_le _ _
        _ ≤ d.enthropyD := by unfold minPosStep; split <;> omega
    · exact ih (minPosStep m a) d hmem hpos

theorem minPosFrom_attained : ∀ (l : List Domain) (m : Nat),
    minPosFrom l m = m ∨
      ∃ d ∈ l, d.enthropyD = minPosFrom l m ∧ 0 < d.enthropyD := by
  intro l
  induction l with
  | nil => intro m; exact Or.inl rfl
  | cons a rest ih =>
    intro m
    rcases ih (minPosStep m a) with heq | ⟨d, hmem, hdm, hdpos⟩
    · by_cases hstep : 0 < a.enthropyD ∧ a.enthropyD < m
      · refine Or.inr ⟨a, List.mem_cons_self a rest, ?_, hstep.1⟩
        show a.enthropyD = minPosFrom rest (minPosStep m a)
        rw [heq]
        unfold minPosStep
        rw [if_pos hstep]
      · refine Or.inl ?_
        show minPosFrom rest (minPosStep m a) = m
        rw [heq]
        unfold minPosStep
        rw [if_neg hstep]
    · exact Or.inr ⟨d, List.mem_cons_of_mem a hmem, hdm, hdpos⟩

theorem scanMinAux_cons_ok {i : Nat} {d : Domain} (rest : List (Nat × Domain))
    (m : Nat) (acc : List Nat) (hd : d ≠ .Invalid) :
    scanMinAux ((i, d) :: rest) m acc =
      if d.enthropyD = 0 then scanMinAux rest m acc
      else
        scanMinAux rest (if d.enthropyD < m then d.enthropyD else m)
          (if d.enthropyD = (if d.enthropyD < m then d.enthropyD else m)
            then (if d.enthropyD < m then [] else acc) ++ [i]
            else (if d.enthropyD < m then [] else acc)) := by
  show (match d.enthropy with
    | Except.error e => Except.error e
    | Except.ok e =>
      if e = 0 then scanMinAux rest m acc
      else
        scanMinAux rest (if e < m then e else m)
          (if e = (if e < m then e else m) then (if e < m then [] else acc) ++ [i]
            else (if e < m then [] else acc))) = _
  rw [enthropy_ok_of_ne_invalid hd]

theorem tiedIdxsFrom_cons (i : Nat) (d : Domain) (rest : List (Nat × Domain)) (m : Nat) :
    tiedIdxsFrom ((i, d) :: rest) m =
      if d.enthropyD = m then i :: tiedIdxsFrom rest m else tiedIdxsFrom rest m := by
  unfold tiedIdxsFrom
  rw [List.filter_cons]
  by_cases h : d.enthropyD = m
  · rw [if_pos (by simpa using h), List.map_cons, if_pos h]
  · rw [if_neg (by simpa using h), if_neg h]

theorem scanMinAux_spec : ∀ (pl : List (Nat × Domain)) (m : Nat) (acc : List Nat),
    (∀ p ∈ pl, p.2 ≠ Domain.Invalid) → 1 ≤ m →
    scanMinAux pl m acc = .ok
      ((if minPosFrom (pl.map Prod.snd) m < m then [] else acc) ++
        tiedIdxsFrom pl (minPosFrom (pl.map Prod.snd) m)) := by
  intro pl
  induction pl with
  | nil =>
    intro m acc _ _
    show Except.ok acc = Except.ok ((if minPosFrom [] m < m then [] else acc) ++
      tiedIdxsFrom [] (minPosFrom [] m))
    rw [show minPosFrom [] m = m from rfl, if_neg (Nat.lt_irrefl m),
      show tiedIdxsFrom [] m = [] from rfl, List.append_nil]
  | cons p rest ih =>
    intro m acc hni hm
    obtain ⟨i, d⟩ := p
    have hd : d ≠ Domain.Invalid := hni (i, d) (List.mem_cons_self _ _)
    have hni' : ∀ q ∈ rest, q.2 ≠ Domain.Invalid :=
      fun q hq => hni q (List.mem_cons_of_mem _ hq)
    rw [scanMinAux_cons_ok rest m acc hd]
    have hfold : minPosFrom (((i, d) :: rest).map Prod.snd) m =
        minPosFrom (rest.map Prod.snd) (minPosStep m d) := rfl
    rw [hfold, tiedIdxsFrom_cons]
    by_cases h0 : d.enthropyD = 0
    · rw [if_pos h0]
      have hstep : minPosStep m d = m := by unfold minPosStep; rw [if_neg (by omega)]
      rw [hstep]
      have hne : ¬ d.enthropyD = minPosFrom (rest.map Prod.snd) m := by
        have := minPosFrom_pos (rest.map Prod.snd) m hm
        omega
      rw [if_neg hne]
      exact ih m acc hni' hm
    · rw [if_neg h0]
      by_cases hlt : d.enthropyD < m
      · have hstep : minPosStep m d = d.enthropyD := by
          unfold minPosStep; rw [if_pos (by omega)]
        rw [hstep, if_pos hlt, if_pos hlt, if_pos rfl]
        rw [ih d.enthropyD ([] ++ [i]) hni' (by omega)]
        have hMle : minPosFrom (rest.map Prod.snd) d.enthropyD ≤ d.enthropyD :=
          minPosFrom_le _ _
        have hMlt : minPosFrom (rest.map Prod.snd) d.enthropyD < m := by omega
        rw [if_pos hMlt]
        rcases Nat.lt_or_ge (minPosFrom (rest.map Prod.snd) d.enthropyD) d.enthropyD with
          hM2 | hM2
        · rw [if_pos hM2, if_neg (by omega)]
        · have hMeq : d.enthropyD = minPosFrom (rest.map Prod.snd) d.enthropyD := by omega
          rw [if_neg (by omega), if_pos hMeq]
          rfl
      · have hstep : minPosStep m d = m := by
          unfold minPosStep; rw [if_neg (by omega)]
        rw [hstep, if_neg hlt, if_neg hlt]
        have hMle : minPosFrom (rest.map Prod.snd) m ≤ m := minPosFrom_le _ _
        by_cases heqm : d.enthropyD = m
        · rw [if_pos heqm]
          rw [ih m (acc ++ [i]) hni' hm]
          rcases Nat.lt_or_ge (minPosFrom (rest.map Prod.snd) m) m with hM2 | hM2
          · rw [if_pos hM2, if_pos hM2, if_neg (by omega)]
          · have hMeq : minPosFrom (rest.map Prod.snd) m = m := by omega
            rw [if_neg (by omega), if_neg (by omega), if_pos (by omega)]
            rw [List.append_assoc]
            rfl
        · rw [if_neg heqm]
          rw [ih m acc hni' hm]
          have hne : ¬ d.enthropyD = minPosFrom (rest.map Prod.snd) m := by omega
          rw [if_neg hne]

theorem enum_map_snd (l : List Domain) : l.enum.map Prod.snd = l :=
  List.enumFrom_map_snd 0 l

theorem mem_of_mem_enum {l : List Domain} {p : Nat × Domain} (h : p ∈ l.enum) :
    p.2 ∈ l := by
  have hm := List.mem_map_of_mem Prod.snd h
  rwa [enum_map_snd] at hm

theorem exists_enum_of_mem {l : List Domain} {d : Domain} (h : d ∈ l) :
    ∃ p ∈ l.enum, p.2 = d := by
  have hm : d ∈ l.enum.map Prod.snd := by rwa [enum_map_snd]
  obtain ⟨p, hp, hpd⟩ := List.mem_map.mp hm
  exact ⟨p, hp, hpd⟩

theorem scanMinAux_err : ∀ (pl : List (Nat × Domain)) (m : Nat) (acc : List Nat),
    (∃ p ∈ pl, p.2 = Domain.Invalid) → scanMinAux pl m acc = .error ⟨⟩ := by
  intro pl
  induction pl with
  | nil =>
    intro m acc hex
    obtain ⟨p, hp, _⟩ := hex
    exact absurd hp (List.not_mem_nil p)
  | cons q rest ih =>
    intro m acc hex
    obtain ⟨i, d⟩ := q
    by_cases hd : d = Domain.Invalid
    · subst hd
      rfl
    · obtain ⟨p, hp, hinv⟩ := hex
      rcases List.mem_cons.mp hp with heq | hmem
      · subst heq
        exact absurd hinv hd
      · rw [scanMinAux_cons_ok rest m acc hd]
        by_cases h0 : d.enthropyD = 0
        · rw [if_pos h0]
          exact ih m acc ⟨p, hmem, hinv⟩
        · rw [if_neg h0]
          exact ih _ _ ⟨p, hmem, hinv⟩

theorem scan_eq_tied {f : Field} (h : Domain.Invalid ∉ f.domains) :
    scanMinAux f.domains.enum (State.count + 1) [] = .ok (tiedMinIdxs f.domains) := by
  have hni : ∀ p ∈ f.domains.enum, p.2 ≠ Domain.Invalid := fun p hp hinv =>
    h (hinv ▸ mem_of_mem_enum hp)
  rw [scanMinAux_spec f.domains.enum (State.count + 1) [] hni
    (Nat.succ_le_succ (Nat.zero_le _))]
  have hM : minPosFrom (f.domains.enum.map Prod.snd) (State.count + 1) =
      minPosEnthropy f.domains := by rw [enum_map_snd]; rfl
  rw [hM]
  show Except.ok (_ ++ tiedIdxsFrom f.domains.enum (minPosEnthropy f.domains)) = _
  unfold tiedMinIdxs
  split <;> rfl

/-- C2 counterexample: a cell whose candidate list has more than
`State.count + 1` entries is skipped by the scan entirely, so on
`gridOversized` (one cell of uncertainty 14) `collapse_random` returns
`false` ("grid fully fixed") without collapsing anything, although a cell
of positive uncertainty exists. -/
theorem collapse_random_skips_large_cx :
    (∃ d ∈ gridOversized.domains, 0 < d.enthropyD) ∧
    gridOversized.collapse_random 0 0 = .ok (false, gridOversized) :=
  ⟨by decide, rfl⟩

/-- C2 (amended): `collapse_random` errors as soon as the scan meets a
Contradiction cell; on a contradiction-free grid it returns `false` leaving
the grid unchanged when no cell is tied at the minimum positive uncertainty
(in particular when all cells are fixed), and otherwise collapses, with the
`d1` draw, one of the cells tied at the minimum positive uncertainty
(`tiedMinIdxs`) and returns `true`.  `minPosEnthropy` is a lower bound on
every positive cell uncertainty, and — provided every cell's uncertainty is
at most `State.count + 1`, as in every grid the program builds — some cell
of positive uncertainty guarantees a non-empty tie set. -/
theorem collapse_random_spec (f : Field) (d1 d2 : Nat) :
    (Domain.Invalid ∈ f.domains → f.collapse_random d1 d2 = .error ⟨⟩) ∧
    (Domain.Invalid ∉ f.domains →
      f.collapse_random d1 d2 =
        match (tiedMinIdxs f.domains)[d1 % (tiedMinIdxs f.domains).length]? with
        | none => .ok (false, f)
        | some i => .ok (true, f.setIdx i ((f.domains[i]?.getD .Invalid).collapse d2))) ∧
    (∀ d ∈ f.domains, 0 < d.enthropyD → minPosEnthropy f.domains ≤ d.enthropyD) ∧
    ((∀ d ∈ f.domains, d.enthropyD ≤ State.count + 1) →
      (∃ d ∈ f.domains, 0 < d.enthropyD) → tiedMinIdxs f.domains ≠ []) ∧
    ((∀ d ∈ f.domains, d.enthropyD = 0) → tiedMinIdxs f.domains = []) := by
  refine ⟨?_, ?_, ?_, ?_, ?_⟩
  · intro h
    unfold Field.collapse_random
    obtain ⟨p, hp, hpd⟩ := exists_enum_of_mem h
    rw [scanMinAux_err f.domains.enum (State.count + 1) [] ⟨p, hp, hpd⟩]
  · intro h
    unfold Field.collapse_random
    rw [scan_eq_tied h]
    show (match (tiedMinIdxs f.domains)[d1 % (tiedMinIdxs f.domains).length]? with
      | none => Except.ok (false, f)
      | some i =>
        match f.domains[i]? with
        | some d => Except.ok (true, f.setIdx i (d.collapse d2))
        | none => Except.ok (true, f)) = _
    cases hidx : (tiedMinIdxs f.domains)[d1 % (tiedMinIdxs f.domains).length]? with
    | none => rfl
    | some i =>
      show (match f.domains[i]? with
        | some d => Except.ok (true, f.setIdx i (d.collapse d2))
        | none => Except.ok (true, f)) =
        Except.ok (true, f.setIdx i ((f.domains[i]?.getD Domain.Invalid).collapse d2))
      cases hdi : f.domains[i]? with
      | some d => rfl
      | none =>
        show Except.ok (true, f) =
          Except.ok (true, f.setIdx i ((Option.getD none Domain.Invalid).collapse d2))
        have hset : f.setIdx i ((Option.getD none Domain.Invalid).collapse d2) = f := by
          unfold Field.setIdx
          rw [List.set_eq_of_length_le (List.getElem?_eq_none_iff.mp hdi)]
        rw [hset]
  · intro d hd hpos
    exact minPosFrom_le_pos f.domains (State.count + 1) d hd hpos
  · intro hb hex
    obtain ⟨d0, hd0, hpos0⟩ := hex
    have hattain : ∃ dm ∈ f.domains,
        dm.enthropyD = minPosEnthropy f.domains ∧ 0 < dm.enthropyD := by
      rcases minPosFrom_attained f.domains (State.count + 1) with heq | hex2
      · refine ⟨d0, hd0, ?_, hpos0⟩
        have h1 := minPosFrom_le_pos f.domains (State.count + 1) d0 hd0 hpos0
        have h2 := hb d0 hd0
        unfold minPosEnthropy
        unfold minPosEnthropy at h1
        omega
      · exact hex2
    obtain ⟨dm, hdm, hde, _⟩ := hattain
    obtain ⟨p, hpmem, hp2⟩ := exists_enum_of_mem hdm
    have hpf : p ∈ f.domains.enum.filter
        (fun q => q.2.enthropyD == minPosEnthropy f.domains) :=
      List.mem_filter.mpr ⟨hpmem, by rw [hp2]; simpa using hde⟩
    intro hcontra
    unfold tiedMinIdxs tiedIdxsFrom at hcontra
    rw [List.map_eq_nil_iff] at hcontra
    rw [hcontra] at hpf
    exact absurd hpf (List.not_mem_nil p)
  · intro hz
    unfold tiedMinIdxs tiedIdxsFrom
    have hfe : f.domains.enum.filter
        (fun q => q.2.enthropyD == minPosEnthropy f.domains) = [] := by
      rw [List.filter_eq_nil_iff]
      intro p hp
      have h0 : p.2.enthropyD = 0 := hz p.2 (mem_of_mem_enum hp)
      have h1 : 1 ≤ minPosEnthropy f.domains :=
        minPosFrom_pos f.domains (State.count + 1) (Nat.succ_le_succ (Nat.zero_le _))
      simp only [h0, beq_iff_eq]
      omega
    rw [hfe]
    rfl

/-- Witness for `collapse_random_spec`: on `gridTwoChoices` the single
two-candidate cell is the unique tied minimum; draw 0 collapses it to
`Empty`. -/
theorem collapse_random_spec_witness :
    gridTwoChoices.collapse_random 0 0 = .ok (true, ⟨1, [.Collapsed .Empty]⟩) :=
  ((collapse_random_spec gridTwoChoices 0 0).2.1 (by decide)).trans rfl

end WFC
